import Mathlib

/-!
Shallow embedding of the nvbandwidth-amd sources (src/memcpy.cpp, src/kernels.cpp,
src/nvbandwidth.cpp) together with theorems settling the specification claims.
Machine integers are modelled as `Nat` with explicit `% 2 ^ w` where overflow matters.
-/

set_option maxRecDepth 10000

/-- One mebibyte, the `_MiB` constant of the sources. -/
def MiB : Nat := 1024 * 1024

/-- Modelled from the spec: `defaultBufferSize` is declared in a header that is not part of
src/; the spec and the program's own note ("It is suggested to use the default buffer size
(64MB)") fix it at 64 (MiB). -/
def defaultBufferSize : Nat := 64

/-- `sizeof(uint4)`: the 16-byte element granularity of the compute-issued copy. -/
def sizeofUint4 : Nat := 16

/-- `MemcpyOperationSM::getAdjustedCopySize` (src/memcpy.cpp:371-392), as a function of the
requested size and of `totalThreadCount = numSm * numThreadPerBlock` for the stream's device.
Small sizes are rounded down to a multiple of 16 bytes; large sizes are truncated to a
multiple of 16 bytes times the total thread count. -/
def getAdjustedCopySizeSM (size totalThreadCount : Nat) : Nat :=
  if size < defaultBufferSize * MiB then
    (size / sizeofUint4) * sizeofUint4
  else
    (totalThreadCount * (size / sizeofUint4 / totalThreadCount)) * sizeofUint4

/-- The byte count returned by `copyKernel` (src/kernels.cpp:77-116): the small branch returns
`numUint4 * sizeof(uint4)`, the large branch returns `sizeInElement * sizeof(uint4)` after
truncating `sizeInElement` to a multiple of the total thread count. -/
def copyKernelSize (size totalThreadCount : Nat) : Nat :=
  if size < defaultBufferSize * MiB then
    (size / sizeofUint4) * sizeofUint4
  else
    (totalThreadCount * (size / sizeofUint4 / totalThreadCount)) * sizeofUint4

/-- The two `MemcpyOperation` subclasses: copy-engine issued and compute (SM) issued. -/
inductive CopyMode
  | CE
  | SM
deriving DecidableEq

/-- Virtual `getAdjustedCopySize` dispatch: `MemcpyOperationCE::getAdjustedCopySize`
(src/memcpy.cpp:360-363) returns the size unchanged; the SM override truncates. -/
def getAdjustedCopySize : CopyMode → Nat → Nat → Nat
  | CopyMode.CE, size, _ => size
  | CopyMode.SM, size, ttc => getAdjustedCopySizeSM size ttc

/-- Byte count returned by the virtual `memcpyFunc`: `MemcpyOperationCE::memcpyFunc`
(src/memcpy.cpp:397-403) returns `copySize`; `MemcpyOperationSM::memcpyFunc`
(src/memcpy.cpp:368-370) returns `copyKernel`'s value. -/
def memcpyFuncSize : CopyMode → Nat → Nat → Nat
  | CopyMode.CE, size, _ => size
  | CopyMode.SM, size, ttc => copyKernelSize size ttc

/-- src/memcpy.cpp:243: `finalCopySize[i] = getAdjustedCopySize(srcNodes[0]->getBufferSize(),
streams[i])` — note the index 0 on the source-node list. `srcSizes` lists the per-pair source
buffer sizes, `ttc` the total thread count of pair `i`'s device. -/
def finalCopySizeAt (mode : CopyMode) (srcSizes : List Nat) (ttc i : Nat) : Nat :=
  getAdjustedCopySize mode (srcSizes.getD 0 0) ttc

/-- src/memcpy.cpp:279: `adjustedCopySizes[i] = memcpyFunc(..., srcNodes[i]->getBufferSize(),
loopCount)` — the timed copy reads pair `i`'s own buffer size. -/
def adjustedCopySizeAt (mode : CopyMode) (srcSizes : List Nat) (ttc i : Nat) : Nat :=
  memcpyFuncSize mode (srcSizes.getD i 0) ttc

lemma getAdjustedCopySizeSM_eq_copyKernelSize (s t : Nat) :
    getAdjustedCopySizeSM s t = copyKernelSize s t := rfl

/-- C5: the SM-adjusted copy size is at most the requested size, a multiple of the 16-byte
element granularity, and equals the requested size exactly when a large requested size is a
multiple of 16 bytes times the total thread count. -/
theorem c5_adjusted_size (size ttc : Nat) :
    getAdjustedCopySizeSM size ttc ≤ size ∧
    sizeofUint4 ∣ getAdjustedCopySizeSM size ttc ∧
    (defaultBufferSize * MiB ≤ size → (sizeofUint4 * ttc) ∣ size →
      getAdjustedCopySizeSM size ttc = size) := by
  unfold getAdjustedCopySizeSM
  by_cases h : size < defaultBufferSize * MiB
  · rw [if_pos h]
    exact ⟨Nat.div_mul_le_self _ _, dvd_mul_left _ _, fun h1 _ => absurd h (not_lt.mpr h1)⟩
  · rw [if_neg h]
    refine ⟨?_, dvd_mul_left _ _, ?_⟩
    · calc ttc * (size / sizeofUint4 / ttc) * sizeofUint4
          ≤ size / sizeofUint4 * sizeofUint4 := by
            apply Nat.mul_le_mul_right
            rw [Nat.mul_comm]
            exact Nat.div_mul_le_self _ _
        _ ≤ size := Nat.div_mul_le_self _ _
    · intro hbig hdvd
      obtain ⟨m, hm⟩ := hdvd
      rcases Nat.eq_zero_or_pos ttc with ht0 | htpos
      · exfalso
        have : size = 0 := by rw [hm, ht0]; ring
        rw [this] at hbig
        simp [defaultBufferSize, MiB] at hbig
      · have hdiv : size / sizeofUint4 = ttc * m := by
          rw [hm, Nat.mul_assoc, Nat.mul_comm sizeofUint4 (ttc * m)]
          exact Nat.mul_div_cancel _ (by norm_num [sizeofUint4])
        rw [hdiv, Nat.mul_div_cancel_left _ htpos, hm]
        ring

/-- Witness for C5 at a concrete large input: 64 MiB with 4096 total threads. -/
theorem c5_witness :
    defaultBufferSize * MiB ≤ 67108864 ∧ (sizeofUint4 * 4096) ∣ 67108864 ∧
    getAdjustedCopySizeSM 67108864 4096 = 67108864 :=
  ⟨by decide, by decide,
    (c5_adjusted_size 67108864 4096).2.2 (by decide) (by decide)⟩

/-- C2 counterexample: a copy-engine group whose second pair has a source buffer of 8 bytes
while pair 0's has 4 bytes (each pair's source and destination sizes being equal, as the
orchestrator asserts): the precomputed size for pair 1 is 4 but the copy moves 8. -/
theorem c2_counterexample :
    finalCopySizeAt CopyMode.CE [4, 8] 256 1 ≠ adjustedCopySizeAt CopyMode.CE [4, 8] 256 1 := by
  decide

/-- C2 amended: the precomputed `finalCopySize[i]` equals the byte count the timed copy
returns for pair `i` whenever pair `i`'s source buffer size equals pair 0's (in particular
for uniform groups, the only kind the scenarios build). -/
theorem c2_amended (mode : CopyMode) (srcSizes : List Nat) (ttc i : Nat)
    (h : srcSizes.getD i 0 = srcSizes.getD 0 0) :
    finalCopySizeAt mode srcSizes ttc i = adjustedCopySizeAt mode srcSizes ttc i := by
  cases mode with
  | CE =>
    show srcSizes.getD 0 0 = srcSizes.getD i 0
    exact h.symm
  | SM =>
    show getAdjustedCopySizeSM (srcSizes.getD 0 0) ttc = copyKernelSize (srcSizes.getD i 0) ttc
    rw [h, getAdjustedCopySizeSM_eq_copyKernelSize]

/-- Witness for C2's amended theorem on a uniform two-pair group. -/
theorem c2_witness :
    List.getD [4, 4] 1 0 = List.getD [4, 4] 0 0 ∧
    finalCopySizeAt CopyMode.CE [4, 4] 256 1 = adjustedCopySizeAt CopyMode.CE [4, 4] 256 1 :=
  ⟨by decide, c2_amended CopyMode.CE [4, 4] 256 1 (by decide)⟩

/-- Modelled from the spec: the `BandwidthValue` enumeration is declared in memcpy.h, which
is not under src/. The spec lists the aggregation modes as PER_PAIR (the default, reported
from pair 0's statistic — the final `else` branch of doMemcpy), SUM, TOTAL; an unscoped C++
enum assigns the underlying values 0, 1, 2 in declaration order. -/
inductive BandwidthValue
  | PER_PAIR
  | SUM_BW
  | TOTAL_BW
deriving DecidableEq, BEq

/-- Underlying C integer value of each enumerator. -/
def BandwidthValue.toNat : BandwidthValue → Nat
  | .PER_PAIR => 0
  | .SUM_BW => 1
  | .TOTAL_BW => 2

/-- The verbose-print guard of src/memcpy.cpp:311:
`bandwidthValue == BandwidthValue::SUM_BW || BandwidthValue::TOTAL_BW || i == 0`.
The middle operand is the enumerator constant itself converted to bool (nonzero, hence
true), not a comparison against `bandwidthValue`. -/
def verbosePrintCond (bv : BandwidthValue) (i : Nat) : Bool :=
  (bv == BandwidthValue.SUM_BW) || (BandwidthValue.TOTAL_BW.toNat != 0) || (i == 0)

/-- The pair indices whose per-trial sample line is printed for a group of the given size. -/
def printedSamplePairs (bv : BandwidthValue) (groupSize : Nat) : List Nat :=
  (List.range groupSize).filter (fun i => verbosePrintCond bv i)

/-- C6: in PER_PAIR mode with a group of size 2 the per-trial verbose output contains the
sample lines of both pairs, not only pair 0's — the print guard is identically true because
its middle operand is the truthy constant `BandwidthValue::TOTAL_BW`. -/
theorem c6_bug :
    printedSamplePairs BandwidthValue.PER_PAIR 2 = [0, 1] ∧
    printedSamplePairs BandwidthValue.PER_PAIR 2 ≠ [0] := by
  decide

/-- Modelled from the spec: `spinKernel`'s `timeoutMs` parameter defaults to `~0ULL` (the
disabled-timeout sentinel); the default argument lives in kernels.h, which is not under
src/. -/
def spinDisabledSentinel : Nat := 2 ^ 64 - 1

/-- src/kernels.cpp:139: `timeoutClocks = clocksPerMs * timeoutMs` in unsigned 64-bit
arithmetic. -/
def timeoutClocks (clocksPerMs timeoutMs : Nat) : Nat :=
  (clocksPerMs * timeoutMs) % 2 ^ 64

/-- src/kernels.cpp:122: `spinKernelDevice` takes the timeout branch only when
`timeoutClocks != ~0ULL`; this predicate is true iff the timeout check is live. -/
def timeoutCheckEnabled (tc : Nat) : Bool := tc != spinDisabledSentinel

/-- C8: with the default `timeoutMs = ~0` and a realistic device clock rate of 1410000 kHz,
the computed `timeoutClocks` is `2^64 - 1410000`, not the `~0ULL` sentinel, so the timeout
branch in `spinKernelDevice` stays live instead of being suppressed. -/
theorem c8_bug :
    timeoutClocks 1410000 spinDisabledSentinel = 2 ^ 64 - 1410000 ∧
    timeoutCheckEnabled (timeoutClocks 1410000 spinDisabledSentinel) = true := by
  decide

/-- The 2 MiB staging-chunk size (`1024 * 1024 * 2`) used by `memsetPattern` and
`memcmpPattern`. -/
def M2 : Nat := 1024 * 1024 * 2

/-- `value = value ^ (value << 13)` on a 32-bit unsigned value (src/memcpy.cpp:111). -/
def xsStep1 (v : Nat) : Nat := (v ^^^ (v <<< 13)) % 2 ^ 32

/-- `value = value ^ (value >> 17)` on a 32-bit unsigned value (src/memcpy.cpp:112); the
result of the xor of two 32-bit values needs no further truncation. -/
def xsStep2 (v : Nat) : Nat := v ^^^ (v >>> 17)

/-- `value = value ^ (value << 5)` on a 32-bit unsigned value (src/memcpy.cpp:113). -/
def xsStep3 (v : Nat) : Nat := (v ^^^ (v <<< 5)) % 2 ^ 32

/-- One step of the xorshift generator in `MemcpyNode::xorshift2MBPattern`
(src/memcpy.cpp:105-117): `value ^= value << 13; value ^= value >> 17; value ^= value << 5`
on 32-bit unsigned values. -/
def xs32 (v : Nat) : Nat := xsStep3 (xsStep2 (xsStep1 (v % 2 ^ 32)))

/-- `pattern[n]` after `xorshift2MBPattern(pattern, seed)`: the generator state after `n + 1`
steps from the seed. -/
def patternWord (seed n : Nat) : Nat := xs32^[n + 1] seed

/-- Byte `o` of the staged 2 MiB pattern: byte `o % 4` (little-endian) of the 32-bit word at
index `o / 4`. -/
def patternByte (seed o : Nat) : Nat := patternWord seed (o / 4) / 256 ^ (o % 4) % 256

/-- `cuMemcpy` into a byte-addressed buffer model: bytes `[dstBase, dstBase + len)` take the
source's bytes `[0, len)`, every other byte keeps its old contents. -/
def cuMemcpyToBuf (dstBase : Nat) (src : Nat → Nat) (len : Nat) (buf : Nat → Nat) :
    Nat → Nat :=
  fun o => if dstBase ≤ o ∧ o < dstBase + len then src (o - dstBase) else buf o

/-- The chunk loop of `MemcpyNode::memsetPattern` (src/memcpy.cpp:46-49): copy the staged
pattern into chunks `0 .. count - 1`, each 2 MiB wide. -/
def memsetChunks (pat : Nat → Nat) : Nat → (Nat → Nat) → Nat → Nat
  | 0, buf => buf
  | n + 1, buf => cuMemcpyToBuf (n * M2) pat M2 (memsetChunks pat n buf)

/-- `MemcpyNode::memsetPattern` (src/memcpy.cpp:35-56): `_2MBchunkCount = size / 2MiB` full
chunks and then the `remaining = size - _2MBchunkCount * 2MiB` trailing bytes, every chunk
copied from the single staged 2 MiB pattern. -/
def memsetPattern (size seed : Nat) (buf : Nat → Nat) : Nat → Nat :=
  if size - size / M2 * M2 ≠ 0 then
    cuMemcpyToBuf (size / M2 * M2) (patternByte seed) (size - size / M2 * M2)
      (memsetChunks (patternByte seed) (size / M2) buf)
  else
    memsetChunks (patternByte seed) (size / M2) buf

/-- `memcmp(pattern, devicePattern, len) != 0` over the `len` bytes of the chunk that starts
at `base`: true iff some byte of the checked region differs from the staged pattern. -/
def chunkMismatch (buf : Nat → Nat) (seed base len : Nat) : Bool :=
  decide (∃ j ∈ Finset.range len, buf (base + j) ≠ patternByte seed j)

/-- `devicePattern[x]`: the 32-bit word read back at word index `x` of the chunk at `base`,
assembled little-endian from four buffer bytes. -/
def bufWord (buf : Nat → Nat) (base x : Nat) : Nat :=
  buf (base + 4 * x) + 256 * buf (base + 4 * x + 1) + 65536 * buf (base + 4 * x + 2) +
    16777216 * buf (base + 4 * x + 3)

/-- The diagnostic word loop of `MemcpyNode::memcmpPattern` (src/memcpy.cpp:76-83, 91-97):
scan word indices `0 .. numWords - 1` and abort at the first word differing from the staged
pattern, reporting byte offset `base + 4 * x`; `none` when no scanned word differs. -/
def wordScan (buf : Nat → Nat) (seed base numWords : Nat) : Option Nat :=
  ((List.range numWords).find? fun x => bufWord buf base x != patternWord seed x).map
    fun x => base + 4 * x

/-- One chunk of `MemcpyNode::memcmpPattern`: the word loop runs only when `memcmp` over the
chunk's `len` bytes reports a difference, and it scans exactly `len / 4` words — the
truncated loop bound `remaining / sizeof(unsigned int)` of src/memcpy.cpp:91. -/
def chunkCheck (buf : Nat → Nat) (seed base len : Nat) : Option Nat :=
  if chunkMismatch buf seed base len then wordScan buf seed base (len / 4) else none

/-- `MemcpyNode::memcmpPattern` (src/memcpy.cpp:58-104): check every full 2 MiB chunk, then
the remaining bytes, against the one staged pattern. `some off` is the byte offset reported
just before `std::abort()`; `none` means the check returned without aborting. -/
def memcmpPattern (buf : Nat → Nat) (size seed : Nat) : Option Nat :=
  match (List.range (size / M2)).findSome? (fun n => chunkCheck buf seed (n * M2) M2) with
  | some off => some off
  | none =>
    if size - size / M2 * M2 ≠ 0 then
      chunkCheck buf seed (size / M2 * M2) (size - size / M2 * M2)
    else
      none

lemma memsetChunks_apply (pat : Nat → Nat) (buf : Nat → Nat) (count o : Nat) :
    memsetChunks pat count buf o = if o < count * M2 then pat (o % M2) else buf o := by
  induction count with
  | zero => simp [memsetChunks]
  | succ n ih =>
    show cuMemcpyToBuf (n * M2) pat M2 (memsetChunks pat n buf) o = _
    rw [Nat.succ_mul]
    unfold cuMemcpyToBuf
    by_cases hin : n * M2 ≤ o ∧ o < n * M2 + M2
    · rw [if_pos hin, if_pos (by omega)]
      have hmod : o % M2 = o - n * M2 := by
        have hc : M2 * n = n * M2 := Nat.mul_comm _ _
        have h1 : o = M2 * n + (o - n * M2) := by omega
        calc o % M2 = (M2 * n + (o - n * M2)) % M2 := by rw [← h1]
          _ = (o - n * M2) % M2 := by rw [Nat.mul_add_mod]
          _ = o - n * M2 := Nat.mod_eq_of_lt (by omega)
      rw [hmod]
    · rw [if_neg hin, ih]
      by_cases ho : o < n * M2
      · rw [if_pos ho, if_pos (by omega)]
      · rw [if_neg ho, if_neg (by omega)]

lemma memsetPattern_apply (size seed : Nat) (buf : Nat → Nat) (o : Nat) :
    memsetPattern size seed buf o =
      if o < size then patternByte seed (o % M2) else buf o := by
  have hle : size / M2 * M2 ≤ size := Nat.div_mul_le_self _ _
  have hmod : size - size / M2 * M2 < M2 := by
    have h0 : M2 * (size / M2) + size % M2 = size := Nat.div_add_mod size M2
    have h1 : size % M2 < M2 := Nat.mod_lt _ (by norm_num [M2])
    have h2 : M2 * (size / M2) = size / M2 * M2 := Nat.mul_comm _ _
    omega
  unfold memsetPattern
  by_cases hr : size - size / M2 * M2 ≠ 0
  · rw [if_pos hr]
    unfold cuMemcpyToBuf
    by_cases hin : size / M2 * M2 ≤ o ∧ o < size / M2 * M2 + (size - size / M2 * M2)
    · rw [if_pos hin, if_pos (by omega)]
      have h1 : o = M2 * (size / M2) + (o - size / M2 * M2) := by
        have := Nat.mul_comm M2 (size / M2)
        omega
      have hmod2 : o % M2 = o - size / M2 * M2 := by
        calc o % M2 = (M2 * (size / M2) + (o - size / M2 * M2)) % M2 := by rw [← h1]
          _ = (o - size / M2 * M2) % M2 := by rw [Nat.mul_add_mod]
          _ = o - size / M2 * M2 := Nat.mod_eq_of_lt (by omega)
      rw [hmod2]
    · rw [if_neg hin, memsetChunks_apply]
      by_cases ho : o < size / M2 * M2
      · rw [if_pos ho, if_pos (by omega)]
      · rw [if_neg ho, if_neg (by omega)]
  · rw [if_neg hr, memsetChunks_apply]
    have : size / M2 * M2 = size := by omega
    rw [this]

lemma chunkCheck_memset_none (size seed : Nat) (buf : Nat → Nat) (base len : Nat)
    (hbase : base % M2 = 0) (hlen : len ≤ M2) (hfit : base + len ≤ size) :
    chunkCheck (memsetPattern size seed buf) seed base len = none := by
  have hmm : chunkMismatch (memsetPattern size seed buf) seed base len = false := by
    unfold chunkMismatch
    rw [decide_eq_false_iff_not]
    rintro ⟨j, hj, hne⟩
    rw [Finset.mem_range] at hj
    apply hne
    rw [memsetPattern_apply, if_pos (by omega)]
    obtain ⟨t, ht⟩ := Nat.dvd_of_mod_eq_zero hbase
    rw [ht, Nat.mul_add_mod, Nat.mod_eq_of_lt (by omega)]
  unfold chunkCheck
  rw [hmm]
  simp

/-- C3: the round-trip law — filling any buffer of any size with `memsetPattern(seed)` and
immediately checking it with `memcmpPattern` over the same size and seed reports no mismatch
and does not abort. -/
theorem c3_roundtrip (size seed : Nat) (buf : Nat → Nat) :
    memcmpPattern (memsetPattern size seed buf) size seed = none := by
  have hchunks : ∀ n ∈ List.range (size / M2),
      chunkCheck (memsetPattern size seed buf) seed (n * M2) M2 = none := by
    intro n hn
    rw [List.mem_range] at hn
    apply chunkCheck_memset_none
    · exact Nat.mul_mod_left n M2
    · exact le_refl M2
    · have h1 : (n + 1) * M2 ≤ size / M2 * M2 := Nat.mul_le_mul_right _ (by omega)
      have h2 : size / M2 * M2 ≤ size := Nat.div_mul_le_self _ _
      have h3 : n * M2 + M2 = (n + 1) * M2 := by ring
      omega
  unfold memcmpPattern
  rw [List.findSome?_eq_none_iff.mpr hchunks]
  have hle : size / M2 * M2 ≤ size := Nat.div_mul_le_self _ _
  have hmod : size - size / M2 * M2 < M2 := by
    have h0 : M2 * (size / M2) + size % M2 = size := Nat.div_add_mod size M2
    have h1 : size % M2 < M2 := Nat.mod_lt _ (by norm_num [M2])
    have h2 : M2 * (size / M2) = size / M2 * M2 := Nat.mul_comm _ _
    omega
  by_cases hr : size - size / M2 * M2 ≠ 0
  · show (if size - size / M2 * M2 ≠ 0 then _ else _) = _
    rw [if_pos hr]
    exact chunkCheck_memset_none size seed buf _ _ (Nat.mul_mod_left _ _) (by omega) (by omega)
  · show (if size - size / M2 * M2 ≠ 0 then _ else _) = _
    rw [if_neg hr]

/-- C10: the filled contents are 2 MiB-periodic — the staged pattern is generated once and
written to every chunk, so within the region covered by full chunks the byte at `o` equals
the byte at `o + 2 MiB`. -/
theorem c10_periodic (size seed : Nat) (buf : Nat → Nat) (o : Nat)
    (h : o + M2 < size / M2 * M2) :
    memsetPattern size seed buf o = memsetPattern size seed buf (o + M2) := by
  have hsz : size / M2 * M2 ≤ size := Nat.div_mul_le_self _ _
  rw [memsetPattern_apply, memsetPattern_apply, if_pos (by omega), if_pos (by omega),
    Nat.add_mod_right]

/-- Witness for C10 on a 4 MiB fill at offset 0. -/
theorem c10_witness :
    0 + M2 < 4194304 / M2 * M2 ∧
    memsetPattern 4194304 0 (fun _ => 0) 0 = memsetPattern 4194304 0 (fun _ => 0) (0 + M2) :=
  ⟨by decide, c10_periodic 4194304 0 (fun _ => 0) 0 (by decide)⟩

/-- A 6-byte region equal to the seed-0 pattern everywhere except byte offset 4. -/
def c1FailingBuf : Nat → Nat :=
  fun o => if o = 4 then (patternByte 0 4 + 1) % 256 else patternByte 0 (o % M2)

/-- C1: a mismatch in the trailing bytes of a size that is not a multiple of 4 is masked —
for a 6-byte check whose byte at offset 4 differs from the pattern, `memcmp` sees the
difference but the diagnostic word loop only scans `6 / 4 = 1` word, so `memcmpPattern`
returns without aborting. -/
theorem c1_bug :
    (∃ o ∈ Finset.range 6, c1FailingBuf o ≠ patternByte 0 (o % M2)) ∧
    memcmpPattern c1FailingBuf 6 0 = none := by
  decide

lemma testBit_ge_false {w v i : Nat} (hv : v < 2 ^ w) (hi : w ≤ i) : v.testBit i = false :=
  Nat.testBit_lt_two_pow (lt_of_lt_of_le hv (Nat.pow_le_pow_right (by norm_num) hi))

lemma xorShiftLeft_inj {w k a b : Nat} (hk : 0 < k) (ha : a < 2 ^ w) (hb : b < 2 ^ w)
    (h : (a ^^^ (a <<< k)) % 2 ^ w = (b ^^^ (b <<< k)) % 2 ^ w) : a = b := by
  apply Nat.eq_of_testBit_eq
  intro i
  induction i using Nat.strong_induction_on with
  | _ i ih =>
    rcases Nat.lt_or_ge i w with hiw | hiw
    · have h2 := congrArg (fun x => Nat.testBit x i) h
      simp only [Nat.testBit_mod_two_pow, Nat.testBit_xor, Nat.testBit_shiftLeft, hiw,
        decide_True, Bool.true_and] at h2
      rcases Nat.lt_or_ge i k with hik | hik
      · have hik2 : ¬ (i ≥ k) := by omega
        simpa [hik2] using h2
      · have hprev := ih (i - k) (by omega)
        simp only [(by omega : i ≥ k), decide_True, Bool.true_and, hprev] at h2
        have h3 := congrArg (fun x => x ^^ b.testBit (i - k)) h2
        simpa [Bool.xor_assoc] using h3
    · rw [testBit_ge_false ha hiw, testBit_ge_false hb hiw]

lemma xorShiftRight_bit_eq {w k a b : Nat} (hk : 0 < k) (ha : a < 2 ^ w) (hb : b < 2 ^ w)
    (h : a ^^^ (a >>> k) = b ^^^ (b >>> k)) :
    ∀ d i, w ≤ i + d → a.testBit i = b.testBit i := by
  intro d
  induction d with
  | zero =>
    intro i hi
    rw [testBit_ge_false ha (by omega), testBit_ge_false hb (by omega)]
  | succ d ihd =>
    intro i hi
    have h2 := congrArg (fun x => Nat.testBit x i) h
    simp only [Nat.testBit_xor, Nat.testBit_shiftRight] at h2
    rcases Nat.lt_or_ge (k + i) w with hkw | hkw
    · have hnext : a.testBit (k + i) = b.testBit (k + i) := ihd (k + i) (by omega)
      rw [hnext] at h2
      have h3 := congrArg (fun x => x ^^ b.testBit (k + i)) h2
      simpa [Bool.xor_assoc] using h3
    · have hha : a.testBit (k + i) = false := testBit_ge_false ha hkw
      have hhb : b.testBit (k + i) = false := testBit_ge_false hb hkw
      simpa [hha, hhb] using h2

lemma xorShiftRight_inj {w k a b : Nat} (hk : 0 < k) (ha : a < 2 ^ w) (hb : b < 2 ^ w)
    (h : a ^^^ (a >>> k) = b ^^^ (b >>> k)) : a = b :=
  Nat.eq_of_testBit_eq fun i => xorShiftRight_bit_eq hk ha hb h w i (by omega)

lemma xsStep1_lt (v : Nat) : xsStep1 v < 2 ^ 32 := Nat.mod_lt _ (by norm_num)

lemma xsStep2_lt {v : Nat} (hv : v < 2 ^ 32) : xsStep2 v < 2 ^ 32 := by
  apply Nat.xor_lt_two_pow hv
  have : v >>> 17 ≤ v := by
    rw [Nat.shiftRight_eq_div_pow]; exact Nat.div_le_self _ _
  omega

lemma xs32_lt (v : Nat) : xs32 v < 2 ^ 32 := Nat.mod_lt _ (by norm_num)

lemma xs32_inj {a b : Nat} (ha : a < 2 ^ 32) (hb : b < 2 ^ 32) (h : xs32 a = xs32 b) :
    a = b := by
  unfold xs32 at h
  rw [Nat.mod_eq_of_lt ha, Nat.mod_eq_of_lt hb] at h
  have h3 : xsStep2 (xsStep1 a) = xsStep2 (xsStep1 b) :=
    xorShiftLeft_inj (w := 32) (by norm_num) (xsStep2_lt (xsStep1_lt a))
      (xsStep2_lt (xsStep1_lt b)) h
  have h2 : xsStep1 a = xsStep1 b :=
    xorShiftRight_inj (w := 32) (by norm_num) (xsStep1_lt a) (xsStep1_lt b) h3
  exact xorShiftLeft_inj (w := 32) (by norm_num) ha hb h2

lemma patternWord_lt (seed n : Nat) : patternWord seed n < 2 ^ 32 := by
  unfold patternWord
  rw [Function.iterate_succ_apply']
  exact xs32_lt _

lemma patternWord_zero (seed : Nat) : patternWord seed 0 = xs32 seed := by
  unfold patternWord
  rw [Function.iterate_succ_apply', Function.iterate_zero_apply]

lemma patternWord_zero_inj {s1 s2 : Nat} (h1 : s1 < 2 ^ 32) (h2 : s2 < 2 ^ 32)
    (hne : s1 ≠ s2) : patternWord s1 0 ≠ patternWord s2 0 := by
  rw [patternWord_zero, patternWord_zero]
  exact fun h => hne (xs32_inj h1 h2 h)

lemma byte_assemble (word : Nat) (hw : word < 2 ^ 32) :
    word / 256 ^ 0 % 256 + 256 * (word / 256 ^ 1 % 256) + 65536 * (word / 256 ^ 2 % 256) +
      16777216 * (word / 256 ^ 3 % 256) = word := by
  have e0 : word / 256 ^ 0 = word := by norm_num
  have e1 : word / 256 ^ 1 = word / 256 := by norm_num
  have e2 : word / 256 ^ 2 = word / 256 / 256 := by
    rw [Nat.div_div_eq_div_mul]; norm_num
  have e3 : word / 256 ^ 3 = word / 256 / 256 / 256 := by
    rw [Nat.div_div_eq_div_mul, Nat.div_div_eq_div_mul]; norm_num
  have d0 := Nat.div_add_mod word 256
  have d1 := Nat.div_add_mod (word / 256) 256
  have d2 := Nat.div_add_mod (word / 256 / 256) 256
  have dtop : word / 256 / 256 / 256 % 256 = word / 256 / 256 / 256 := by
    apply Nat.mod_eq_of_lt
    rw [Nat.div_div_eq_div_mul, Nat.div_div_eq_div_mul]
    exact Nat.div_lt_of_lt_mul (by norm_num at hw ⊢; omega)
  rw [e0, e1, e2, e3, dtop]
  omega

lemma patternByte_lt_four (seed j : Nat) (hj : j < 4) :
    patternByte seed j = patternWord seed 0 / 256 ^ j % 256 := by
  unfold patternByte
  rw [Nat.div_eq_of_lt hj, Nat.mod_eq_of_lt hj]

lemma exists_byte_ne {s1 s2 : Nat} (hne : patternWord s1 0 ≠ patternWord s2 0) :
    ∃ j < 4, patternByte s1 j ≠ patternByte s2 j := by
  by_contra hcon
  push_neg at hcon
  apply hne
  have hb : ∀ j, j < 4 → patternWord s1 0 / 256 ^ j % 256 = patternWord s2 0 / 256 ^ j % 256 := by
    intro j hj
    have hj2 := hcon j hj
    rwa [patternByte_lt_four _ _ hj, patternByte_lt_four _ _ hj] at hj2
  rw [← byte_assemble (patternWord s1 0) (patternWord_lt s1 0),
    ← byte_assemble (patternWord s2 0) (patternWord_lt s2 0),
    hb 0 (by norm_num), hb 1 (by norm_num), hb 2 (by norm_num), hb 3 (by norm_num)]

lemma bufWord_memset_zero (size s1 : Nat) (buf : Nat → Nat) (hsz : 4 ≤ size) :
    bufWord (memsetPattern size s1 buf) 0 0 = patternWord s1 0 := by
  have hbyte : ∀ j, j < 4 → memsetPattern size s1 buf j = patternWord s1 0 / 256 ^ j % 256 := by
    intro j hj
    rw [memsetPattern_apply, if_pos (by omega),
      Nat.mod_eq_of_lt (show j < M2 by norm_num [M2]; omega), patternByte_lt_four _ _ hj]
  show memsetPattern size s1 buf (0 + 4 * 0) + 256 * memsetPattern size s1 buf (0 + 4 * 0 + 1) +
      65536 * memsetPattern size s1 buf (0 + 4 * 0 + 2) +
      16777216 * memsetPattern size s1 buf (0 + 4 * 0 + 3) = patternWord s1 0
  norm_num
  rw [hbyte 0 (by norm_num), hbyte 1 (by norm_num), hbyte 2 (by norm_num),
    hbyte 3 (by norm_num)]
  exact byte_assemble _ (patternWord_lt s1 0)

lemma wordScan_head (buf : Nat → Nat) (seed base numWords : Nat) (hn : 0 < numWords)
    (hw : bufWord buf base 0 ≠ patternWord seed 0) :
    wordScan buf seed base numWords = some base := by
  obtain ⟨m, hm⟩ := Nat.exists_eq_succ_of_ne_zero (Nat.pos_iff_ne_zero.mp hn)
  unfold wordScan
  rw [hm, List.range_succ_eq_map, List.find?_cons_of_pos _ (by simpa using hw)]
  simp

lemma chunkMismatch_memset_true (size s1 s2 : Nat) (buf : Nat → Nat) (len : Nat)
    (hlen4 : 4 ≤ len) (hfit : len ≤ size)
    (hbyte : ∃ j < 4, patternByte s1 j ≠ patternByte s2 j) :
    chunkMismatch (memsetPattern size s1 buf) s2 0 len = true := by
  obtain ⟨j, hj4, hne⟩ := hbyte
  unfold chunkMismatch
  rw [decide_eq_true_eq]
  refine ⟨j, Finset.mem_range.mpr (by omega), ?_⟩
  rw [Nat.zero_add, memsetPattern_apply, if_pos (by omega),
    Nat.mod_eq_of_lt (show j < M2 by norm_num [M2]; omega)]
  exact hne

lemma findSome?_cons_some {α β : Type} (f : α → Option β) (a : α) (l : List α) (b : β)
    (h : f a = some b) : (a :: l).findSome? f = some b := by
  rw [List.findSome?_cons, h]

/-- C4: pattern discrimination — for distinct 32-bit seeds, filling with one seed and
verifying with the other is detected at the very first word, because one xorshift step is
injective on 32-bit values; the reported first-mismatch byte offset is 0. -/
theorem c4_discrimination (s1 s2 size : Nat) (buf : Nat → Nat)
    (h1 : s1 < 2 ^ 32) (h2 : s2 < 2 ^ 32) (hne : s1 ≠ s2) (hsz : 4 ≤ size) :
    memcmpPattern (memsetPattern size s1 buf) size s2 = some 0 := by
  have hw : patternWord s1 0 ≠ patternWord s2 0 := patternWord_zero_inj h1 h2 hne
  have hbyte := exists_byte_ne hw
  have hbw : bufWord (memsetPattern size s1 buf) 0 0 ≠ patternWord s2 0 := by
    rw [bufWord_memset_zero size s1 buf hsz]
    exact hw
  unfold memcmpPattern
  rcases Nat.lt_or_ge size M2 with hlt | hge
  · have hcc : size / M2 = 0 := Nat.div_eq_of_lt hlt
    rw [hcc]
    simp only [List.range_zero, List.findSome?_nil, Nat.zero_mul, Nat.sub_zero]
    rw [if_pos (by omega)]
    unfold chunkCheck
    rw [chunkMismatch_memset_true size s1 s2 buf size hsz (le_refl _) hbyte, if_pos rfl]
    exact wordScan_head _ _ _ _ (Nat.div_pos hsz (by norm_num)) hbw
  · have hcc : 0 < size / M2 := Nat.div_pos hge (by norm_num [M2])
    obtain ⟨m, hm⟩ := Nat.exists_eq_succ_of_ne_zero (Nat.pos_iff_ne_zero.mp hcc)
    have hf0 : chunkCheck (memsetPattern size s1 buf) s2 (0 * M2) M2 = some 0 := by
      rw [Nat.zero_mul]
      unfold chunkCheck
      rw [chunkMismatch_memset_true size s1 s2 buf M2 (by norm_num [M2]) hge hbyte, if_pos rfl]
      exact wordScan_head _ _ _ _ (by norm_num [M2]) hbw
    rw [hm, List.range_succ_eq_map]
    have hfind : List.findSome?
        (fun n => chunkCheck (memsetPattern size s1 buf) s2 (n * M2) M2)
        (0 :: List.map Nat.succ (List.range m)) = some 0 :=
      findSome?_cons_some (fun n => chunkCheck (memsetPattern size s1 buf) s2 (n * M2) M2)
        0 (List.map Nat.succ (List.range m)) 0 hf0
    rw [hfind]

/-- Witness for C4 with seeds 1 and 2 on a 4-byte buffer. -/
theorem c4_witness :
    (1 : Nat) < 2 ^ 32 ∧ (2 : Nat) < 2 ^ 32 ∧ (1 : Nat) ≠ 2 ∧ (4 : Nat) ≤ 4 ∧
    memcmpPattern (memsetPattern 4 1 (fun _ => 0)) 4 2 = some 0 :=
  ⟨by norm_num, by norm_num, by norm_num, le_refl 4,
    c4_discrimination 1 2 4 (fun _ => 0) (by norm_num) (by norm_num) (by norm_num)
      (le_refl 4)⟩

/-- Insertion into a sorted list of rational samples. -/
def insertSorted (x : ℚ) : List ℚ → List ℚ
  | [] => [x]
  | y :: ys => if x ≤ y then x :: y :: ys else y :: insertSorted x ys

/-- Insertion sort of the accumulated samples (median needs a full ordering). -/
def sortQ : List ℚ → List ℚ
  | [] => []
  | x :: xs => insertSorted x (sortQ xs)

/-- Modelled from the spec: `PerformanceStatistic::returnAppropriateMetric` is declared in a
header that is not under src/; per the spec it reduces the accumulated bandwidth samples to
their median, or to their arithmetic mean when the global mean selection is active.
Double-precision values are modelled as exact rationals. -/
def returnAppropriateMetric (useMean : Bool) (samples : List ℚ) : ℚ :=
  if useMean then samples.sum / samples.length
  else
    if samples.length % 2 = 1 then (sortQ samples).getD (samples.length / 2) 0
    else
      ((sortQ samples).getD (samples.length / 2 - 1) 0 +
        (sortQ samples).getD (samples.length / 2) 0) / 2

/-- src/memcpy.cpp:308: the per-trial integer bandwidth
`adjustedCopySize * loopCount * 1000ull * 1000ull / elapsedInUs`. -/
def bandwidthSample (adj loopCount elapsedUs : Nat) : Nat :=
  adj * loopCount * 1000000 / elapsedUs

/-- The samples fed to one pair's statistic across the trial loop (src/memcpy.cpp:304-316),
one per trial, from that pair's start-to-end elapsed microseconds. -/
def pairSampleSeq (adj loopCount : Nat) (elapsed : List Nat) : List ℚ :=
  elapsed.map fun e => (bandwidthSample adj loopCount e : ℚ)

/-- The samples fed to the TOTAL_BW group statistic (src/memcpy.cpp:318-334): the summed
adjusted sizes of all pairs against each trial's start0-to-totalEnd elapsed microseconds. -/
def totalSampleSeq (adjList : List Nat) (loopCount : Nat) (elapsedTotal : List Nat) :
    List ℚ :=
  elapsedTotal.map fun e => (bandwidthSample adjList.sum loopCount e : ℚ)

/-- The value returned by `MemcpyOperation::doMemcpy` (src/memcpy.cpp:348-358) as a function
of the per-pair adjusted sizes, each pair's elapsed times per trial, and the total-span
elapsed times per trial: SUM_BW sums every pair's reduced metric scaled by 1e-9, TOTAL_BW
reduces the group statistic, and the final `else` (PER_PAIR) reduces pair 0's statistic. -/
def doMemcpyResult (bv : BandwidthValue) (useMean : Bool) (adjList : List Nat)
    (loopCount : Nat) (elapsedPerPair : List (List Nat)) (elapsedTotal : List Nat) : ℚ :=
  if bv = BandwidthValue.SUM_BW then
    (List.zipWith
      (fun adj el =>
        returnAppropriateMetric useMean (pairSampleSeq adj loopCount el) * (1 / 1000000000))
      adjList elapsedPerPair).sum
  else if bv = BandwidthValue.TOTAL_BW then
    returnAppropriateMetric useMean (totalSampleSeq adjList loopCount elapsedTotal) *
      (1 / 1000000000)
  else
    returnAppropriateMetric useMean
      (pairSampleSeq (adjList.getD 0 0) loopCount (elapsedPerPair.getD 0 [])) *
      (1 / 1000000000)

/-- C7: for a Transfer Pair Group of size 1 whose per-trial total-span measurements coincide
with pair 0's own measurements, TOTAL_BW, SUM_BW and the default PER_PAIR reduction all
return the same final value. -/
theorem c7_degenerate (useMean : Bool) (adj loopCount : Nat) (elapsed : List Nat) :
    doMemcpyResult BandwidthValue.SUM_BW useMean [adj] loopCount [elapsed] elapsed =
      doMemcpyResult BandwidthValue.PER_PAIR useMean [adj] loopCount [elapsed] elapsed ∧
    doMemcpyResult BandwidthValue.TOTAL_BW useMean [adj] loopCount [elapsed] elapsed =
      doMemcpyResult BandwidthValue.PER_PAIR useMean [adj] loopCount [elapsed] elapsed := by
  constructor
  · simp [doMemcpyResult]
  · simp [doMemcpyResult, totalSampleSeq, pairSampleSeq]

/-- A benchmark scenario as `findTestcase` sees it: its key plus the device-dependent
outcome of `filter()`. -/
structure Testcase where
  key : String
  passesFilter : Bool
deriving DecidableEq

/-- The `isspace` skip performed by `strtol` before any digits. -/
def skipSpaces : List Char → List Char
  | [] => []
  | c :: cs =>
    if c = ' ' ∨ c = '\t' ∨ c = '\n' ∨ c = '\r' then skipSpaces cs else c :: cs

/-- The maximal base-10 digit run consumed by `strtol`, with its accumulated value. -/
def takeDigits : List Char → Nat → Nat × List Char
  | [], acc => (acc, [])
  | c :: cs, acc =>
    if c.isDigit then takeDigits cs (acc * 10 + (c.toNat - 48)) else (acc, c :: cs)

/-- `strtol(id.c_str(), &p, 10)` as used in src/nvbandwidth.cpp:79: skip spaces, optional
sign, then a maximal digit run; when no digit is consumed the end pointer stays at the start
of the string, so the remainder is the whole input. -/
def strtol10 (s : List Char) : Int × List Char :=
  match skipSpaces s with
  | '-' :: c :: rest =>
    if c.isDigit then
      (-((takeDigits (c :: rest) 0).1 : Int), (takeDigits (c :: rest) 0).2)
    else (0, s)
  | '+' :: c :: rest =>
    if c.isDigit then
      (((takeDigits (c :: rest) 0).1 : Int), (takeDigits (c :: rest) 0).2)
    else (0, s)
  | c :: rest =>
    if c.isDigit then
      (((takeDigits (c :: rest) 0).1 : Int), (takeDigits (c :: rest) 0).2)
    else (0, s)
  | [] => (0, s)

/-- The unsigned 64-bit view of the signed `long index` taken by the comparison
`index >= testcases.size()` (the `long` promotes to `size_t`). -/
def toULong (i : Int) : Nat := (i % (2 ^ 64 : Int)).toNat

/-- `findTestcase` (src/nvbandwidth.cpp:76-93): an identifier that fully parses as a number
indexes the testcase list, anything else is looked up by key; both failure paths `throw` a
string. -/
def findTestcase (tcs : List Testcase) (id : String) : Except String Testcase :=
  if (strtol10 id.data).2 ≠ [] then
    match tcs.find? (fun t => t.key == id) with
    | some t => Except.ok t
    | none => Except.error ("Testcase " ++ id ++ " not found!")
  else
    if tcs.length ≤ toULong (strtol10 id.data).1 then
      Except.error ("Testcase index " ++ id ++ " out of bound!")
    else
      Except.ok (tcs.getD (toULong (strtol10 id.data).1) ⟨"", false⟩)

/-- The observable outcome of one `runTestcase` call (src/nvbandwidth.cpp:95-114): the
scenario ran, was waived by its filter, or the thrown string was caught and printed as an
ERROR line — in every case the function returns normally to its caller. -/
inductive RunResult
  | ran (key : String)
  | waived (key : String)
  | error (msg : String)
deriving DecidableEq

/-- `runTestcase` (src/nvbandwidth.cpp:95-114). -/
def runTestcase (tcs : List Testcase) (id : String) : RunResult :=
  match findTestcase tcs id with
  | Except.error s => RunResult.error s
  | Except.ok t => if ¬ t.passesFilter then RunResult.waived t.key else RunResult.ran t.key

/-- The testcase loop of `main` (src/nvbandwidth.cpp:213-217): every requested identifier is
run in order, regardless of earlier failures. -/
def runTestcases (tcs : List Testcase) (ids : List String) : List RunResult :=
  ids.map (runTestcase tcs)

/-- An identifier that resolves to no scenario, in the code's own terms: a non-numeric
identifier matching no testcase key, or a numeric identifier whose unsigned index is out of
bounds. -/
@[reducible] def resolvesToNone (tcs : List Testcase) (id : String) : Prop :=
  ((strtol10 id.data).2 ≠ [] ∧ ∀ t ∈ tcs, t.key ≠ id) ∨
  ((strtol10 id.data).2 = [] ∧ tcs.length ≤ toULong (strtol10 id.data).1)

/-- C9: an identifier resolving to no scenario makes `findTestcase` throw a string, which
`runTestcase` catches and turns into an ERROR outcome while returning normally, and the
driver loop still runs every subsequently requested scenario. -/
theorem c9_recoverable (tcs : List Testcase) (id : String) (rest : List String)
    (h : resolvesToNone tcs id) :
    (∃ msg, findTestcase tcs id = Except.error msg) ∧
    (∃ msg, runTestcase tcs id = RunResult.error msg) ∧
    (∃ msg, runTestcases tcs (id :: rest) =
      RunResult.error msg :: runTestcases tcs rest) := by
  have hfind : ∃ msg, findTestcase tcs id = Except.error msg := by
    rcases h with ⟨hne, hkey⟩ | ⟨hnil, hlen⟩
    · refine ⟨"Testcase " ++ id ++ " not found!", ?_⟩
      unfold findTestcase
      rw [if_pos hne]
      have hnone : tcs.find? (fun t => t.key == id) = none := by
        rw [List.find?_eq_none]
        intro t ht
        simpa using hkey t ht
      rw [hnone]
    · refine ⟨"Testcase index " ++ id ++ " out of bound!", ?_⟩
      unfold findTestcase
      rw [if_neg (by simp [hnil]), if_pos hlen]
  obtain ⟨msg, hmsg⟩ := hfind
  refine ⟨⟨msg, hmsg⟩, ⟨msg, ?_⟩, ⟨msg, ?_⟩⟩
  · unfold runTestcase
    rw [hmsg]
  · unfold runTestcases
    rw [List.map_cons]
    congr 1
    unfold runTestcase
    rw [hmsg]

/-- Witness for C9: index 7 against a one-element testcase list, followed by a valid key. -/
theorem c9_witness :
    resolvesToNone [⟨"host_to_device_memcpy_ce", true⟩] "7" ∧
    ((∃ msg, findTestcase [⟨"host_to_device_memcpy_ce", true⟩] "7" = Except.error msg) ∧
     (∃ msg, runTestcase [⟨"host_to_device_memcpy_ce", true⟩] "7" = RunResult.error msg) ∧
     (∃ msg, runTestcases [⟨"host_to_device_memcpy_ce", true⟩]
          ["7", "host_to_device_memcpy_ce"] =
        RunResult.error msg ::
          runTestcases [⟨"host_to_device_memcpy_ce", true⟩] ["host_to_device_memcpy_ce"])) :=
  ⟨by decide, c9_recoverable _ "7" ["host_to_device_memcpy_ce"] (by decide)⟩
